import Mathlib

/-!
Shallow embedding of the TracPoll event-application core (src/index.js).

The in-memory poll store (a JS `Map`) is modelled as an association list
with unique keys; JS `Map.get`/`Map.set`/`Map.has` become `mapFind` /
`mapSet` / `(mapFind ∙ ∙).isSome`.  JS numbers carried by `option_index`
are modelled as rationals (`ℚ`): the source checks only
`typeof option_index !== 'number'` and a range condition, so non-integer
numeric values must be representable.  A payload field that may be absent
or non-numeric is an `Option`.  `Date.now()` is passed in as an explicit
`now` parameter.  The externally visible I/O of `_onClose` (contract
writes and the sidechannel broadcast) is modelled as an ordered trace of
`CloseAction`s, with the in-memory mutation recorded as the first trace entry,
mirroring statement order in the source.
-/

/-- Poll meta record: `{ question, options, closes_at, creator, created_at }`
as built by `_onCreate`. -/
structure PollMeta where
  question : String
  options : List String
  closes_at : Option Int
  creator : String
  created_at : Nat
deriving DecidableEq

/-- The result record computed by `_onClose`:
`{ tallies, total_votes, closed_at, winner_index, winner_option }`.
`winner_index` is an `Int` because `Array.prototype.indexOf` yields `-1`
on an empty array; `winner_option` is an `Option` because indexing past
the end of a JS array yields `undefined`. -/
structure TallyResult where
  tallies : List Nat
  total_votes : Nat
  closed_at : Nat
  winner_index : Int
  winner_option : Option String
deriving DecidableEq

/-- One poll record of the store: `{ meta, votes, closed }` plus the
`result` field attached at close (absent before). `votes` maps a voter
identity (hex string) to the recorded option index (a JS number). -/
structure Poll where
  meta : PollMeta
  votes : List (String × ℚ)
  closed : Bool
  result : Option TallyResult
deriving DecidableEq

/-- JS `Map.get`: the value stored under the key, if any (a JS `Map` has
unique keys; on the association list this is the first matching entry). -/
def mapFind {α : Type} : List (String × α) → String → Option α
  | [], _ => none
  | e :: t, k => if e.1 == k then some e.2 else mapFind t k

/-- JS `Map.set`: replace the value in place when the key is present,
append a fresh entry otherwise (insertion order is preserved). -/
def mapSet {α : Type} : List (String × α) → String → α → List (String × α)
  | [], k, v => [(k, v)]
  | e :: t, k, v => if e.1 == k then (k, v) :: t else e :: mapSet t k v

/-- The poll store `this.polls`. -/
abbrev Store := List (String × Poll)

/-- `_onCreate`: validate `!id || !question || !Array.isArray(options) ||
options.length < 2`, reject a duplicate id, otherwise insert a fresh open
record. A missing/non-array `options` is `none`; `!` on a JS string is
truth-y exactly for the empty string; `closes_at || null` turns the falsy
number `0` into `null`. -/
def _onCreate (now : Nat) (id question : String)
    (options : Option (List String)) (closes_at : Option Int)
    (senderHex : String) (polls : Store) : Store :=
  if id == "" || question == "" || options.isNone ||
      (options.getD []).length < 2 then
    polls
  else if (mapFind polls id).isSome then
    polls
  else
    mapSet polls id
      { meta :=
          { question := question
            options := options.getD []
            closes_at := if closes_at == some 0 then none else closes_at
            creator := senderHex
            created_at := now }
        votes := []
        closed := false
        result := none }

/-- `_onVote`: poll must exist, be open, `option_index` must be a number
with `0 ≤ option_index < options.length`, and the sender must not have
voted; then `votes.set(senderHex, option_index)`. `option_index = none`
models a missing or non-number payload field. -/
def _onVote (poll_id : String) (option_index : Option ℚ)
    (senderHex : String) (polls : Store) : Store :=
  match mapFind polls poll_id with
  | none => polls
  | some poll =>
    if poll.closed then polls
    else
      match option_index with
      | none => polls
      | some q =>
        if q < 0 || ((poll.meta.options.length : ℚ)) ≤ q then polls
        else if (mapFind poll.votes senderHex).isSome then polls
        else mapSet polls poll_id
          { poll with votes := mapSet poll.votes senderHex q }

/-- The tally loop: `new Array(len).fill(0)` then `tallies[optIdx]++` per
vote. A stored index increments slot `i` exactly when it equals the JS
number `i`; every stored index passed the vote-time range check, so no
out-of-range slot is ever touched. -/
def tallyOf (len : Nat) (votes : List (String × ℚ)) : List Nat :=
  (List.range len).map
    (fun i => (votes.filter (fun v => v.2 == ((i : Nat) : ℚ))).length)

/-- `Math.max(...tallies)` on a list of counts (used only on nonempty
lists, where it agrees with the fold from 0). -/
def maxNat (l : List Nat) : Nat := l.foldr max 0

/-- `tallies.indexOf(Math.max(...tallies))`: `-1` on the empty array,
else the first index holding the maximum. -/
def winnerIdx (l : List Nat) : Int :=
  if l.isEmpty then -1 else (l.indexOf (maxNat l) : Int)

/-- `poll.meta.options[tallies.indexOf(Math.max(...tallies))]`, `none`
for JS `undefined`. -/
def winnerOpt (options : List String) (l : List Nat) : Option String :=
  if l.isEmpty then none else options.get? (l.indexOf (maxNat l))

/-- The `result` object built by `_onClose` for a given poll record. -/
def closeResult (now : Nat) (poll : Poll) : TallyResult :=
  let tallies := tallyOf poll.meta.options.length poll.votes
  { tallies := tallies
    total_votes := poll.votes.length
    closed_at := now
    winner_index := winnerIdx tallies
    winner_option := winnerOpt poll.meta.options tallies }

/-- Serialized values handed to `peer.contractPut`: the meta record
`{ question, options, created_at }` or the result record. -/
inductive ContractVal where
  | metaVal (question : String) (options : List String) (created_at : Nat)
  | resultVal (r : TallyResult)
deriving DecidableEq

/-- The `poll:result` broadcast payload
`{ type, poll_id, question, options, result }`. -/
structure BroadcastMsg where
  type : String
  poll_id : String
  question : String
  options : List String
  result : TallyResult
deriving DecidableEq

/-- Externally observable steps of `_onClose`, in program order: the
in-memory mutation, then each `contractPut`, then the sidechannel
broadcast. -/
inductive CloseAction where
  | markClosed (poll_id : String) (r : TallyResult)
  | contractPut (key : String) (value : ContractVal)
  | sendSidechannel (channel : String) (msg : BroadcastMsg)
deriving DecidableEq

/-- `_onClose`: poll must exist and be open; compute the tally, mark the
record closed with the result attached, then (guarded on the peer
capabilities) write meta and result to the contract and broadcast
`poll:result`. Returns the new store and the ordered action trace. -/
def _onClose (now : Nat) (hasContractPut hasSend : Bool) (channel : String)
    (poll_id : String) (polls : Store) : Store × List CloseAction :=
  match mapFind polls poll_id with
  | none => (polls, [])
  | some poll =>
    if poll.closed then (polls, [])
    else
      let result := closeResult now poll
      let polls' := mapSet polls poll_id
        { poll with closed := true, result := some result }
      let acts :=
        CloseAction.markClosed poll_id result ::
          ((if hasContractPut then
              [CloseAction.contractPut ("polls/" ++ poll_id ++ "/meta")
                 (ContractVal.metaVal poll.meta.question poll.meta.options
                    poll.meta.created_at),
               CloseAction.contractPut ("polls/" ++ poll_id ++ "/result")
                 (ContractVal.resultVal result)]
            else []) ++
           (if hasSend then
              [CloseAction.sendSidechannel channel
                 { type := "poll:result"
                   poll_id := poll_id
                   question := poll.meta.question
                   options := poll.meta.options
                   result := result }]
            else []))
      (polls', acts)

/-- A delivered sidechannel event as dispatched by `_handleMessage`:
the payload fields plus the sender identity; `Date.now()` observed at
handling time is carried on the events that read it. `other` covers
missing/unknown `type` values. -/
inductive Event where
  | create (now : Nat) (id question : String)
      (options : Option (List String)) (closes_at : Option Int)
      (sender : String)
  | vote (poll_id : String) (option_index : Option ℚ) (sender : String)
  | close (now : Nat) (poll_id : String) (sender : String)
  | other
deriving DecidableEq

/-- Apply one dispatched event to the store (the store component of the
handlers; the peer capabilities do not affect the store). -/
def applyEvent (s : Store) (e : Event) : Store :=
  match e with
  | .create now id question options closes_at sender =>
      _onCreate now id question options closes_at sender s
  | .vote poll_id option_index sender =>
      _onVote poll_id option_index sender s
  | .close now poll_id _ =>
      (_onClose now true true "tracpoll-votes" poll_id s).1
  | .other => s

/-- Apply a delivered event sequence in order. -/
def applyEvents (s : Store) (es : List Event) : Store :=
  es.foldl applyEvent s

/-- How one poll record may evolve across a single delivered event:
a closed record is frozen; closing is the only transition that sets
`result`, it happens together with `closed` flipping false→true and
leaves `votes` untouched; `closed` never reverts and `result` is absent
while open; recorded votes are never changed or removed; `votes` changes
only while the poll is open. -/
def PollEvolves (p p' : Poll) : Prop :=
  (p.closed = true → p' = p) ∧
  (p.closed = false → p'.closed = true →
    p.result = none ∧ (∃ r, p'.result = some r) ∧ p'.votes = p.votes) ∧
  (p'.closed = false → p'.result = none ∧ p.closed = false) ∧
  (∀ k v, mapFind p.votes k = some v → mapFind p'.votes k = some v) ∧
  (p'.votes ≠ p.votes → p.closed = false ∧ p'.closed = false)

/-- Well-formedness of reachable stores: every record has
pairwise-distinct voter identities in its ledger and carries no result
while still open. -/
def WF (s : Store) : Prop :=
  ∀ pid p, mapFind s pid = some p →
    (p.votes.map Prod.fst).Nodup ∧ (p.closed = false → p.result = none)

/-- The events produced by a batch of voters, one accepted vote each:
voter identity paired with a (natural) option index. -/
def voteEvents (poll_id : String) (ps : List (String × Nat)) : List Event :=
  ps.map (fun sv => Event.vote poll_id (some ((sv.2 : Nat) : ℚ)) sv.1)

/-- A concrete open two-option poll, used as test input. -/
def samplePoll : Poll :=
  { meta := { question := "Q", options := ["A", "B"], closes_at := none,
              creator := "adm", created_at := 0 }
    votes := [], closed := false, result := none }

/-- A store holding only `samplePoll` under id `p1`. -/
def sampleStore : Store := [("p1", samplePoll)]

/-- `samplePoll` after two accepted votes, used as test input. -/
def sampleVotedPoll : Poll :=
  { samplePoll with votes := [("v1", ((0 : Nat) : ℚ)), ("v2", ((1 : Nat) : ℚ))] }

/-- A store holding only `sampleVotedPoll` under id `p1`. -/
def sampleVotedStore : Store := [("p1", sampleVotedPoll)]

/-- `sampleVotedPoll` after a successful close at time 7. -/
def sampleClosedPoll : Poll :=
  { sampleVotedPoll with
    closed := true
    result := some (closeResult 7 sampleVotedPoll) }

/-- A store holding only `sampleClosedPoll` under id `p1`. -/
def sampleClosedStore : Store := [("p1", sampleClosedPoll)]

/-! ### Association-list map lemmas -/

theorem mapFind_mapSet_self {α : Type} (m : List (String × α)) (k : String) (v : α) :
    mapFind (mapSet m k v) k = some v := by
  induction m with
  | nil => simp [mapFind, mapSet]
  | cons e t ih =>
    by_cases he : (e.1 == k) = true
    · simp [mapFind, mapSet, he]
    · simp [mapFind, mapSet, he, ih]

theorem mapFind_mapSet_ne {α : Type} (m : List (String × α)) (k k' : String) (v : α)
    (h : k' ≠ k) : mapFind (mapSet m k v) k' = mapFind m k' := by
  induction m with
  | nil => simp [mapFind, mapSet, Ne.symm h]
  | cons e t ih =>
    by_cases he : (e.1 == k) = true
    · have he' : e.1 = k := by simpa using he
      simp [mapFind, mapSet, he, he', Ne.symm h]
    · simp [mapFind, mapSet, he, ih]

theorem mapSet_of_none {α : Type} (m : List (String × α)) (k : String) (v : α)
    (h : mapFind m k = none) : mapSet m k v = m ++ [(k, v)] := by
  induction m with
  | nil => simp [mapSet]
  | cons e t ih =>
    by_cases he : (e.1 == k) = true
    · simp [mapFind, he] at h
    · simp only [mapFind, he, if_false] at h
      simp [mapSet, he, ih h]

theorem mapFind_append {α : Type} (m m' : List (String × α)) (k : String) :
    mapFind (m ++ m') k = (mapFind m k).or (mapFind m' k) := by
  induction m with
  | nil => simp [mapFind]
  | cons e t ih =>
    by_cases he : (e.1 == k) = true
    · simp [mapFind, he]
    · simp [mapFind, he, ih]

theorem mapFind_none_iff {α : Type} (m : List (String × α)) (k : String) :
    mapFind m k = none ↔ ∀ e ∈ m, e.1 ≠ k := by
  induction m with
  | nil => simp [mapFind]
  | cons e t ih =>
    by_cases he : (e.1 == k) = true
    · have he' : e.1 = k := by simpa using he
      simp [mapFind, he, he']
    · have he' : e.1 ≠ k := by simpa using he
      simp [mapFind, he, ih, he']

theorem mem_keys_mapSet {α : Type} (m : List (String × α)) (k k' : String) (v : α)
    (h : k' ∈ (mapSet m k v).map Prod.fst) : k' ∈ m.map Prod.fst ∨ k' = k := by
  induction m with
  | nil =>
    simp [mapSet] at h
    right; exact h
  | cons e t ih =>
    by_cases he : (e.1 == k) = true
    · have he' : e.1 = k := by simpa using he
      simp only [mapSet, he, if_true, List.map_cons, List.mem_cons] at h
      rcases h with h1 | h2
      · right; exact h1
      · left
        simp only [List.map_cons, List.mem_cons]
        right; exact h2
    · simp only [mapSet, he, Bool.false_eq_true, if_false, List.map_cons,
        List.mem_cons] at h
      rcases h with h1 | h2
      · left; simp [List.mem_cons, h1]
      · rcases ih h2 with h3 | h3
        · left
          simp only [List.map_cons, List.mem_cons]
          right; exact h3
        · right; exact h3

theorem nodup_keys_mapSet {α : Type} (m : List (String × α)) (k : String) (v : α)
    (h : (m.map Prod.fst).Nodup) : ((mapSet m k v).map Prod.fst).Nodup := by
  induction m with
  | nil => simp [mapSet]
  | cons e t ih =>
    by_cases he : (e.1 == k) = true
    · have he' : e.1 = k := by simpa using he
      simp only [mapSet, he, if_true, List.map_cons]
      simp only [List.map_cons] at h
      rw [← he']
      exact h
    · have he' : e.1 ≠ k := by simpa using he
      simp only [mapSet, he, Bool.false_eq_true, if_false, List.map_cons]
      simp only [List.map_cons, List.nodup_cons] at h ⊢
      refine ⟨?_, ih h.2⟩
      intro hmem
      rcases mem_keys_mapSet t k e.1 v hmem with h3 | h3
      · exact h.1 h3
      · exact he' h3

/-! ### No-op behaviour of the handlers on rejected events -/

/-- C6: a vote event whose sender already has an entry in `votes` leaves
the store (hence `votes.size` and every recorded option index) unchanged,
whatever option index it carries. -/
theorem vote_duplicate_sender_noop (polls : Store) (pid sender : String)
    (p : Poll) (oi : Option ℚ) (hfind : mapFind polls pid = some p)
    (hdup : (mapFind p.votes sender).isSome = true) :
    _onVote pid oi sender polls = polls := by
  unfold _onVote
  simp only [hfind]
  by_cases hc : p.closed
  · simp [hc]
  · simp only [hc, Bool.false_eq_true, if_false]
    cases oi with
    | none => rfl
    | some q =>
      by_cases hr : (q < 0 || ((p.meta.options.length : ℚ)) ≤ q) = true
      · simp [hr]
      · simp [hr, hdup]

/-- C7: a close event for a nonexistent poll id, or for a poll already
closed, returns the store unchanged and performs no action at all. -/
theorem close_noop_of_missing_or_closed (now : Nat) (hp hs : Bool)
    (ch pid : String) (polls : Store)
    (h : mapFind polls pid = none ∨
      ∃ p, mapFind polls pid = some p ∧ p.closed = true) :
    _onClose now hp hs ch pid polls = (polls, []) := by
  unfold _onClose
  rcases h with h | ⟨p, hfind, hclosed⟩
  · simp [h]
  · simp [hfind, hclosed]

/-- C9: a create event whose id already names a poll record leaves the
store unchanged; in particular the original record is still found intact
under that id. -/
theorem create_duplicate_id_noop (now : Nat) (id question sender : String)
    (options : Option (List String)) (closes_at : Option Int)
    (polls : Store) (p : Poll) (hfind : mapFind polls id = some p) :
    _onCreate now id question options closes_at sender polls = polls ∧
    mapFind (_onCreate now id question options closes_at sender polls) id
      = some p := by
  have h1 : _onCreate now id question options closes_at sender polls = polls := by
    unfold _onCreate
    split
    · rfl
    · simp [hfind]
  exact ⟨h1, by rw [h1]; exact hfind⟩

/-- C1 (failing part): the source checks only `options.length < 2`, never
an upper bound, so a create event with nine options is accepted and
inserts a full record, where the claim requires rejection. -/
theorem create_nine_options_accepted :
    _onCreate 3 "p9" "Q9"
        (some ["o1","o2","o3","o4","o5","o6","o7","o8","o9"]) none "adm" []
      = [("p9",
          { meta := { question := "Q9",
                      options := ["o1","o2","o3","o4","o5","o6","o7","o8","o9"],
                      closes_at := none, creator := "adm", created_at := 3 }
            votes := []
            closed := false
            result := none })] := by decide

/-- C2 (counterexample): `1/2` is a number, is inside `[0, 2)`, is not an
integer (`den = 2`), and yet the vote is recorded rather than ignored. -/
theorem vote_half_recorded :
    (0 ≤ mkRat 1 2 ∧ mkRat 1 2 < ((2 : Nat) : ℚ) ∧ (mkRat 1 2).den = 2) ∧
    (mapFind (_onVote "p1" (some (mkRat 1 2)) "v1" sampleStore) "p1").map
        Poll.votes = some [("v1", mkRat 1 2)] := by decide

/-- C2 (amended): a vote whose `option_index` is missing/not a number, or
is a number outside `[0, options.length)`, is ignored on an existing open
poll: the store is returned unchanged. -/
theorem vote_invalid_index_noop (polls : Store) (pid sender : String)
    (p : Poll) (oi : Option ℚ) (hfind : mapFind polls pid = some p)
    (hopen : p.closed = false)
    (hbad : oi = none ∨
      ∃ q, oi = some q ∧ (q < 0 ∨ ((p.meta.options.length : ℚ)) ≤ q)) :
    _onVote pid oi sender polls = polls := by
  unfold _onVote
  simp only [hfind, hopen, Bool.false_eq_true, if_false]
  rcases hbad with h | ⟨q, hq, hrange⟩
  · rw [h]
  · rw [hq]
    have : (q < 0 || ((p.meta.options.length : ℚ)) ≤ q) = true := by
      rcases hrange with h1 | h1 <;> simp [h1]
    simp [this]

/-- C6 witness at a concrete input. -/
theorem vote_duplicate_sender_noop_witness :
    mapFind sampleVotedStore "p1" = some sampleVotedPoll ∧
    (mapFind sampleVotedPoll.votes "v1").isSome = true ∧
    _onVote "p1" (some ((1 : Nat) : ℚ)) "v1" sampleVotedStore
      = sampleVotedStore :=
  ⟨by decide, by decide,
    vote_duplicate_sender_noop sampleVotedStore "p1" "v1" sampleVotedPoll
      (some ((1 : Nat) : ℚ)) (by decide) (by decide)⟩

/-- C7 witness at a concrete input. -/
theorem close_noop_witness :
    (mapFind sampleClosedStore "p1" = none ∨
      ∃ p, mapFind sampleClosedStore "p1" = some p ∧ p.closed = true) ∧
    _onClose 9 true true "tracpoll-votes" "p1" sampleClosedStore
      = (sampleClosedStore, []) :=
  ⟨Or.inr ⟨sampleClosedPoll, by decide, by decide⟩,
    close_noop_of_missing_or_closed 9 true true "tracpoll-votes" "p1"
      sampleClosedStore (Or.inr ⟨sampleClosedPoll, by decide, by decide⟩)⟩

/-- C9 witness at a concrete input. -/
theorem create_duplicate_id_noop_witness :
    mapFind sampleStore "p1" = some samplePoll ∧
    (_onCreate 5 "p1" "Other" (some ["C", "D"]) none "eve" sampleStore
        = sampleStore ∧
      mapFind (_onCreate 5 "p1" "Other" (some ["C", "D"]) none "eve"
        sampleStore) "p1" = some samplePoll) :=
  ⟨by decide,
    create_duplicate_id_noop 5 "p1" "Other" "eve" (some ["C", "D"]) none
      sampleStore samplePoll (by decide)⟩

/-- C2 (amended) witness at a concrete input: `option_index = 2` on a
two-option poll. -/
theorem vote_invalid_index_noop_witness :
    (mapFind sampleStore "p1" = some samplePoll ∧ samplePoll.closed = false) ∧
    _onVote "p1" (some ((2 : Nat) : ℚ)) "v9" sampleStore = sampleStore :=
  ⟨⟨by decide, by decide⟩,
    vote_invalid_index_noop sampleStore "p1" "v9" samplePoll
      (some ((2 : Nat) : ℚ)) (by decide) (by decide)
      (Or.inr ⟨((2 : Nat) : ℚ), rfl, Or.inr (by decide)⟩)⟩

/-! ### Maximum and first-index lemmas for the tally winner -/

theorem maxNat_mem (l : List Nat) (h : l ≠ []) : maxNat l ∈ l := by
  induction l with
  | nil => exact absurd rfl h
  | cons b t ih =>
    by_cases ht : t = []
    · subst ht; simp [maxNat]
    · have hmem := ih ht
      unfold maxNat at hmem ⊢
      simp only [List.foldr_cons]
      rcases max_choice b (t.foldr max 0) with hmax | hmax
      · rw [hmax]; exact List.mem_cons_self b t
      · rw [hmax]; exact List.mem_cons_of_mem b hmem

theorem le_maxNat (l : List Nat) (x : Nat) (h : x ∈ l) : x ≤ maxNat l := by
  induction l with
  | nil => cases h
  | cons b t ih =>
    unfold maxNat at ih ⊢
    simp only [List.foldr_cons]
    rcases List.mem_cons.mp h with h1 | h1
    · subst h1; exact le_max_left x _
    · exact le_trans (ih h1) (le_max_right b _)

theorem indexOf_first (l : List Nat) (a : Nat) (h : a ∈ l) :
    l.indexOf a < l.length ∧ l.get? (l.indexOf a) = some a ∧
    ∀ j, j < l.indexOf a → l.get? j ≠ some a := by
  induction l with
  | nil => cases h
  | cons b t ih =>
    by_cases hb : (b == a) = true
    · have hb' : b = a := by simpa using hb
      refine ⟨?_, ?_, ?_⟩
      · simp [List.indexOf_cons, hb]
      · simp [List.indexOf_cons, hb, hb']
      · intro j hj
        simp [List.indexOf_cons, hb] at hj
    · have hb' : b ≠ a := by simpa using hb
      have hmem : a ∈ t := by
        rcases List.mem_cons.mp h with h1 | h1
        · exact absurd h1.symm hb'
        · exact h1
      obtain ⟨h1, h2, h3⟩ := ih hmem
      have hidx : (b :: t).indexOf a = t.indexOf a + 1 := by
        simp [List.indexOf_cons, hb]
      refine ⟨?_, ?_, ?_⟩
      · rw [hidx]; simpa using Nat.succ_lt_succ h1
      · rw [hidx]; simpa using h2
      · intro j hj
        rw [hidx] at hj
        cases j with
        | zero => simp [hb']
        | succ j' =>
          have := h3 j' (Nat.lt_of_succ_lt_succ hj)
          simpa using this

/-! ### The successful close, spelled out -/

theorem close_success_eq (now : Nat) (hp hs : Bool) (ch pid : String)
    (polls : Store) (p : Poll) (hfind : mapFind polls pid = some p)
    (hopen : p.closed = false) :
    _onClose now hp hs ch pid polls =
      (mapSet polls pid
         { p with closed := true, result := some (closeResult now p) },
       CloseAction.markClosed pid (closeResult now p) ::
         ((if hp then
             [CloseAction.contractPut ("polls/" ++ pid ++ "/meta")
                (ContractVal.metaVal p.meta.question p.meta.options
                   p.meta.created_at),
              CloseAction.contractPut ("polls/" ++ pid ++ "/result")
                (ContractVal.resultVal (closeResult now p))]
           else []) ++
          (if hs then
             [CloseAction.sendSidechannel ch
                { type := "poll:result", poll_id := pid,
                  question := p.meta.question, options := p.meta.options,
                  result := closeResult now p }]
           else []))) := by
  unfold _onClose
  simp only [hfind, hopen, Bool.false_eq_true, if_false]

theorem tallyOf_length (len : Nat) (votes : List (String × ℚ)) :
    (tallyOf len votes).length = len := by
  simp [tallyOf]

theorem tallyOf_nil (len : Nat) : tallyOf len [] = List.replicate len 0 := by
  unfold tallyOf
  simp only [List.filter_nil, List.length_nil]
  refine List.eq_replicate_iff.mpr ⟨by simp, ?_⟩
  intro b hb
  rcases List.mem_map.mp hb with ⟨i, hi, hib⟩
  exact hib.symm

theorem maxNat_replicate_zero (n : Nat) : maxNat (List.replicate n 0) = 0 := by
  induction n with
  | zero => rfl
  | succ m ih =>
    unfold maxNat at ih ⊢
    simp [List.replicate_succ, ih]

theorem indexOf_replicate_zero (n : Nat) (h : 0 < n) :
    (List.replicate n 0).indexOf 0 = 0 := by
  cases n with
  | zero => cases h
  | succ m => simp [List.replicate_succ, List.indexOf_cons]

/-- C8: on a successful close the commit sequence is, in order: the
in-memory record is replaced by one with `closed = true` and the result
attached (the first, purely local step of the trace), then the meta
record is written under `polls/<pollId>/meta`, then the result under
`polls/<pollId>/result`, and finally the `poll:result` announcement
carrying `poll_id`, `question`, `options` and `result` is broadcast on
the same channel. -/
theorem close_commit_sequence (now : Nat) (ch pid : String)
    (polls : Store) (p : Poll) (hfind : mapFind polls pid = some p)
    (hopen : p.closed = false) :
    _onClose now true true ch pid polls =
      (mapSet polls pid
         { p with closed := true, result := some (closeResult now p) },
       [CloseAction.markClosed pid (closeResult now p),
        CloseAction.contractPut ("polls/" ++ pid ++ "/meta")
          (ContractVal.metaVal p.meta.question p.meta.options
             p.meta.created_at),
        CloseAction.contractPut ("polls/" ++ pid ++ "/result")
          (ContractVal.resultVal (closeResult now p)),
        CloseAction.sendSidechannel ch
          { type := "poll:result", poll_id := pid,
            question := p.meta.question, options := p.meta.options,
            result := closeResult now p }]) := by
  rw [close_success_eq now true true ch pid polls p hfind hopen]
  simp

/-- C8 witness at a concrete input. -/
theorem close_commit_sequence_witness :
    (mapFind sampleVotedStore "p1" = some sampleVotedPoll ∧
      sampleVotedPoll.closed = false) ∧
    _onClose 7 true true "tracpoll-votes" "p1" sampleVotedStore =
      (sampleClosedStore,
       [CloseAction.markClosed "p1" (closeResult 7 sampleVotedPoll),
        CloseAction.contractPut "polls/p1/meta"
          (ContractVal.metaVal "Q" ["A", "B"] 0),
        CloseAction.contractPut "polls/p1/result"
          (ContractVal.resultVal (closeResult 7 sampleVotedPoll)),
        CloseAction.sendSidechannel "tracpoll-votes"
          { type := "poll:result", poll_id := "p1", question := "Q",
            options := ["A", "B"],
            result := closeResult 7 sampleVotedPoll }]) :=
  ⟨⟨by decide, by decide⟩, by
    rw [close_commit_sequence 7 "tracpoll-votes" "p1" sampleVotedStore
      sampleVotedPoll (by decide) (by decide)]
    decide⟩

/-- C10: closing an open poll with an empty vote ledger succeeds and
records all-zero tallies, zero total votes, winner index 0 and the
poll's first option as winner. -/
theorem close_zero_votes (now : Nat) (hp hs : Bool) (ch pid : String)
    (polls : Store) (p : Poll) (hfind : mapFind polls pid = some p)
    (hopen : p.closed = false) (hvotes : p.votes = [])
    (hopts : p.meta.options ≠ []) :
    mapFind ((_onClose now hp hs ch pid polls).1) pid =
      some { p with
             closed := true
             result := some
               { tallies := List.replicate p.meta.options.length 0
                 total_votes := 0
                 closed_at := now
                 winner_index := 0
                 winner_option := p.meta.options.head? } } := by
  rw [close_success_eq now hp hs ch pid polls p hfind hopen]
  show mapFind (mapSet polls pid _) pid = _
  rw [mapFind_mapSet_self]
  have hlen : 0 < p.meta.options.length := List.length_pos.mpr hopts
  have hres : closeResult now p =
      { tallies := List.replicate p.meta.options.length 0
        total_votes := 0
        closed_at := now
        winner_index := 0
        winner_option := p.meta.options.head? } := by
    have hne : (List.replicate p.meta.options.length 0).isEmpty = false := by
      cases hn : p.meta.options.length with
      | zero => omega
      | succ m => simp [List.replicate_succ]
    simp only [closeResult, winnerIdx, winnerOpt, hvotes, tallyOf_nil, hne,
      maxNat_replicate_zero, indexOf_replicate_zero _ hlen, List.length_nil,
      Bool.false_eq_true, if_false]
    simp [List.head?_eq_getElem?]
  rw [hres]

/-- C10 witness at a concrete input. -/
theorem close_zero_votes_witness :
    (mapFind sampleStore "p1" = some samplePoll ∧
      samplePoll.closed = false ∧ samplePoll.votes = [] ∧
      samplePoll.meta.options ≠ []) ∧
    mapFind ((_onClose 4 true true "tracpoll-votes" "p1" sampleStore).1)
        "p1" =
      some { samplePoll with
             closed := true
             result := some
               { tallies := [0, 0], total_votes := 0, closed_at := 4,
                 winner_index := 0, winner_option := some "A" } } :=
  ⟨⟨by decide, by decide, by decide, by decide⟩, by
    rw [close_zero_votes 4 true true "tracpoll-votes" "p1" sampleStore
      samplePoll (by decide) (by decide) (by decide) (by decide)]
    decide⟩

/-- C4: for every successful close the recorded `winner_index` is the
smallest index achieving the maximum value in `tallies` and
`winner_option` is the option at that index; and in the concrete
three-option scenario with voters picking options 0 and 1 the result is
`tallies = [1,1,0]`, `winner_index = 0`, `winner_option = "A"`. -/
theorem close_winner_smallest_max (now : Nat) (hp hs : Bool)
    (ch pid : String) (polls : Store) (p : Poll)
    (hfind : mapFind polls pid = some p) (hopen : p.closed = false)
    (hopts : p.meta.options ≠ []) :
    (∃ p' r, ∃ w : Nat, mapFind ((_onClose now hp hs ch pid polls).1) pid = some p' ∧
       p'.result = some r ∧
       r.winner_index = (w : Int) ∧
       w < r.tallies.length ∧
       r.tallies.get? w = some (maxNat r.tallies) ∧
       (∀ x ∈ r.tallies, x ≤ maxNat r.tallies) ∧
       (∀ j, j < w → r.tallies.get? j ≠ some (maxNat r.tallies)) ∧
       r.winner_option = p.meta.options.get? w) ∧
    (mapFind (applyEvents []
        [Event.create 0 "t1" "Q" (some ["A", "B", "C"]) none "adm",
         Event.vote "t1" (some ((0 : Nat) : ℚ)) "v1",
         Event.vote "t1" (some ((1 : Nat) : ℚ)) "v2",
         Event.close 7 "t1" "adm"]) "t1").map Poll.result =
      some (some { tallies := [1, 1, 0], total_votes := 2, closed_at := 7,
                   winner_index := 0, winner_option := some "A" }) := by
  constructor
  · have hlen : 0 < p.meta.options.length := List.length_pos.mpr hopts
    have hTlen : (tallyOf p.meta.options.length p.votes).length
        = p.meta.options.length := tallyOf_length _ _
    have hTne : tallyOf p.meta.options.length p.votes ≠ [] := by
      intro hnil
      rw [hnil] at hTlen
      simp at hTlen
      omega
    have hie : (tallyOf p.meta.options.length p.votes).isEmpty = false := by
      cases hT : tallyOf p.meta.options.length p.votes with
      | nil => exact absurd hT hTne
      | cons a t => rfl
    have hmem := maxNat_mem _ hTne
    obtain ⟨h1, h2, h3⟩ := indexOf_first _ _ hmem
    rw [close_success_eq now hp hs ch pid polls p hfind hopen]
    refine ⟨_, closeResult now p,
      (tallyOf p.meta.options.length p.votes).indexOf
        (maxNat (tallyOf p.meta.options.length p.votes)),
      mapFind_mapSet_self _ _ _, rfl, ?_, ?_, ?_, ?_, ?_, ?_⟩
    · show winnerIdx (tallyOf p.meta.options.length p.votes) = _
      unfold winnerIdx
      rw [hie]
      simp
    · exact h1
    · exact h2
    · intro x hx
      exact le_maxNat _ x hx
    · exact h3
    · show winnerOpt p.meta.options (tallyOf p.meta.options.length p.votes) = _
      unfold winnerOpt
      rw [hie]
      simp
  · decide

/-- C4 witness at a concrete input. -/
theorem close_winner_smallest_max_witness :
    (mapFind sampleVotedStore "p1" = some sampleVotedPoll ∧
      sampleVotedPoll.closed = false ∧ sampleVotedPoll.meta.options ≠ []) ∧
    ((∃ p' r, ∃ w : Nat,
       mapFind ((_onClose 7 true true "tracpoll-votes" "p1"
           sampleVotedStore).1) "p1" = some p' ∧
       p'.result = some r ∧
       r.winner_index = (w : Int) ∧
       w < r.tallies.length ∧
       r.tallies.get? w = some (maxNat r.tallies) ∧
       (∀ x ∈ r.tallies, x ≤ maxNat r.tallies) ∧
       (∀ j, j < w → r.tallies.get? j ≠ some (maxNat r.tallies)) ∧
       r.winner_option = sampleVotedPoll.meta.options.get? w) ∧
     (mapFind (applyEvents []
        [Event.create 0 "t1" "Q" (some ["A", "B", "C"]) none "adm",
         Event.vote "t1" (some ((0 : Nat) : ℚ)) "v1",
         Event.vote "t1" (some ((1 : Nat) : ℚ)) "v2",
         Event.close 7 "t1" "adm"]) "t1").map Poll.result =
      some (some { tallies := [1, 1, 0], total_votes := 2, closed_at := 7,
                   winner_index := 0, winner_option := some "A" })) :=
  ⟨⟨by decide, by decide, by decide⟩,
    close_winner_smallest_max 7 true true "tracpoll-votes" "p1"
      sampleVotedStore sampleVotedPoll (by decide) (by decide) (by decide)⟩

/-! ### Counting lemmas for the tally -/

theorem cast_beq_cast (a b : Nat) :
    ((((a : Nat) : ℚ)) == (((b : Nat) : ℚ))) = (a == b) := by
  by_cases h : a = b
  · subst h; simp
  · have hne : ((a : Nat) : ℚ) ≠ ((b : Nat) : ℚ) := by exact_mod_cast h
    simp [h, hne]

theorem tallyOf_get (len : Nat) (votes : List (String × ℚ)) (i : Nat)
    (h : i < len) :
    (tallyOf len votes).get? i
      = some ((votes.filter (fun v => v.2 == ((i : Nat) : ℚ))).length) := by
  unfold tallyOf
  rw [List.get?_eq_getElem?, List.getElem?_map, List.getElem?_range h]
  rfl

theorem count_mapped_votes (ps : List (String × Nat)) (i : Nat) :
    ((ps.map (fun sv => (sv.1, ((sv.2 : Nat) : ℚ)))).filter
        (fun v => v.2 == ((i : Nat) : ℚ))).length
      = (ps.filter (fun sv => sv.2 == i)).length := by
  rw [← List.countP_eq_length_filter, ← List.countP_eq_length_filter,
      List.countP_map]
  congr 1
  funext sv
  exact cast_beq_cast sv.2 i

theorem sum_map_add (l : List Nat) (f g : Nat → Nat) :
    (l.map (fun i => f i + g i)).sum = (l.map f).sum + (l.map g).sum := by
  induction l with
  | nil => rfl
  | cons b t ih =>
    simp only [List.map_cons, List.sum_cons, ih]
    omega

theorem sum_beq_indicator (len k : Nat) (h : k < len) :
    ((List.range len).map (fun i => if (k == i) = true then 1 else 0)).sum
      = 1 := by
  induction len with
  | zero => omega
  | succ m ih =>
    rw [List.range_succ, List.map_append, List.sum_append]
    by_cases hk : k = m
    · subst hk
      have h0 : ((List.range k).map
          (fun i => if (k == i) = true then 1 else 0)).sum = 0 := by
        apply List.sum_eq_zero
        intro x hx
        rcases List.mem_map.mp hx with ⟨i, hi, hix⟩
        have : i < k := List.mem_range.mp hi
        have : ¬ (k == i) = true := by simp; omega
        rw [← hix]
        simp [this]
      rw [h0]
      simp
    · have hk' : k < m := by omega
      rw [ih hk']
      simp [hk]

theorem tallyOf_sum (len : Nat) (votes : List (String × ℚ))
    (h : ∀ v ∈ votes, ∃ k : Nat, k < len ∧ v.2 = ((k : Nat) : ℚ)) :
    (tallyOf len votes).sum = votes.length := by
  induction votes with
  | nil => rw [tallyOf_nil]; simp
  | cons v t ih =>
    have hv : tallyOf len (v :: t) = (List.range len).map
        (fun i => (t.filter (fun w => w.2 == ((i : Nat) : ℚ))).length
          + if (v.2 == ((i : Nat) : ℚ)) = true then 1 else 0) := by
      unfold tallyOf
      congr 1
      funext i
      by_cases hvi : (v.2 == ((i : Nat) : ℚ)) = true
      · simp [List.filter_cons, hvi]
      · simp [List.filter_cons, hvi]
    rw [hv, sum_map_add]
    have htail : ((List.range len).map
        (fun i => (t.filter (fun w => w.2 == ((i : Nat) : ℚ))).length)).sum
        = t.length := by
      have := ih (by intro w hw; exact h w (List.mem_cons_of_mem v hw))
      unfold tallyOf at this
      exact this
    rw [htail]
    obtain ⟨k, hk, hvk⟩ := h v (List.mem_cons_self v t)
    have hind : ((List.range len).map
        (fun i => if (v.2 == ((i : Nat) : ℚ)) = true then 1 else 0)).sum
        = 1 := by
      have heq : (fun i => if (v.2 == ((i : Nat) : ℚ)) = true then 1 else 0)
          = (fun i => if (k == i) = true then 1 else 0) := by
        funext i
        rw [hvk, cast_beq_cast]
      rw [heq]
      exact sum_beq_indicator len k hk
    rw [hind]
    simp

/-! ### Accepted vote sequences accumulate in the ledger -/

theorem applyEvents_voteEvents (pid : String) (ps : List (String × Nat)) :
    ∀ (polls : Store) (p : Poll), mapFind polls pid = some p →
    p.closed = false →
    (∀ sv ∈ ps, sv.2 < p.meta.options.length) →
    (ps.map Prod.fst).Nodup →
    (∀ sv ∈ ps, mapFind p.votes sv.1 = none) →
    mapFind (applyEvents polls (voteEvents pid ps)) pid =
      some { p with votes :=
        p.votes ++ ps.map (fun sv => (sv.1, ((sv.2 : Nat) : ℚ))) } := by
  induction ps with
  | nil =>
    intro polls p hfind hopen hvalid hnodup hfresh
    simpa [applyEvents, voteEvents] using hfind
  | cons sv rest ih =>
    intro polls p hfind hopen hvalid hnodup hfresh
    have hq0 : ¬ ((((sv.2 : Nat) : ℚ)) < 0) := not_lt.mpr (by positivity)
    have hqlen : ¬ (((p.meta.options.length : Nat) : ℚ) ≤ ((sv.2 : Nat) : ℚ)) := by
      have := hvalid sv (List.mem_cons_self sv rest)
      push_neg
      exact_mod_cast this
    have hfr : mapFind p.votes sv.1 = none :=
      hfresh sv (List.mem_cons_self sv rest)
    have hstep : applyEvent polls (Event.vote pid (some ((sv.2 : Nat) : ℚ)) sv.1)
        = mapSet polls pid
            { p with votes := p.votes ++ [(sv.1, ((sv.2 : Nat) : ℚ))] } := by
      show _onVote pid (some ((sv.2 : Nat) : ℚ)) sv.1 polls = _
      unfold _onVote
      simp only [hfind, hopen, Bool.false_eq_true, if_false]
      rw [if_neg (by simp [hq0, hqlen]), if_neg (by simp [hfr]),
          mapSet_of_none _ _ _ hfr]
    have hmid := mapFind_mapSet_self polls pid
      { p with votes := p.votes ++ [(sv.1, ((sv.2 : Nat) : ℚ))] }
    have htail := ih
      (mapSet polls pid
        { p with votes := p.votes ++ [(sv.1, ((sv.2 : Nat) : ℚ))] })
      { p with votes := p.votes ++ [(sv.1, ((sv.2 : Nat) : ℚ))] }
      hmid hopen
      (by intro w hw; exact hvalid w (List.mem_cons_of_mem sv hw))
      (by
        simp only [List.map_cons, List.nodup_cons] at hnodup
        exact hnodup.2)
      (by
        intro w hw
        rw [mapFind_append]
        rw [hfresh w (List.mem_cons_of_mem sv hw)]
        have hwne : w.1 ≠ sv.1 := by
          simp only [List.map_cons, List.nodup_cons] at hnodup
          intro hcontra
          exact hnodup.1 (hcontra ▸ List.mem_map_of_mem Prod.fst hw)
        simp [mapFind, Ne.symm hwne])
    show mapFind (applyEvents
      (applyEvent polls (Event.vote pid (some ((sv.2 : Nat) : ℚ)) sv.1))
      (voteEvents pid rest)) pid = _
    rw [hstep, htail]
    simp [List.append_assoc]

/-- C3: starting from an open poll with an empty ledger, a sequence of
vote events with pairwise-distinct voter identities and valid (natural)
option indices is accepted in full, and the close event then records a
result whose `tallies[i]` is the number of voters who chose option `i`,
with `sum(tallies) = totalVotes = number of distinct accepted voters`. -/
theorem close_tallies_count (now : Nat) (polls : Store) (pid sender : String)
    (p : Poll) (ps : List (String × Nat))
    (hfind : mapFind polls pid = some p) (hopen : p.closed = false)
    (hempty : p.votes = [])
    (hnodup : (ps.map Prod.fst).Nodup)
    (hvalid : ∀ sv ∈ ps, sv.2 < p.meta.options.length) :
    ∃ p' r, mapFind (applyEvent (applyEvents polls (voteEvents pid ps))
        (Event.close now pid sender)) pid = some p' ∧
      p'.closed = true ∧ p'.result = some r ∧
      (∀ i, i < p.meta.options.length →
        r.tallies.get? i = some ((ps.filter (fun sv => sv.2 == i)).length)) ∧
      r.tallies.sum = r.total_votes ∧
      r.total_votes = ps.length := by
  have hacc := applyEvents_voteEvents pid ps polls p hfind hopen hvalid hnodup
    (by intro w hw; rw [hempty]; rfl)
  have hvotes1 : p.votes ++ ps.map (fun sv => (sv.1, ((sv.2 : Nat) : ℚ)))
      = ps.map (fun sv => (sv.1, ((sv.2 : Nat) : ℚ))) := by
    rw [hempty]; rfl
  rw [hvotes1] at hacc
  show ∃ p' r, mapFind ((_onClose now true true "tracpoll-votes" pid
      (applyEvents polls (voteEvents pid ps))).1) pid = some p' ∧ _
  rw [close_success_eq now true true "tracpoll-votes" pid _
    { p with votes := ps.map (fun sv => (sv.1, ((sv.2 : Nat) : ℚ))) }
    hacc hopen]
  refine ⟨_, closeResult now
      { p with votes := ps.map (fun sv => (sv.1, ((sv.2 : Nat) : ℚ))) },
    mapFind_mapSet_self _ _ _, rfl, rfl, ?_, ?_, ?_⟩
  · intro i hi
    show (tallyOf p.meta.options.length
        (ps.map (fun sv => (sv.1, ((sv.2 : Nat) : ℚ))))).get? i = _
    rw [tallyOf_get _ _ i hi, count_mapped_votes]
  · show (tallyOf p.meta.options.length
        (ps.map (fun sv => (sv.1, ((sv.2 : Nat) : ℚ))))).sum = _
    rw [tallyOf_sum]
    · rfl
    · intro v hv
      rcases List.mem_map.mp hv with ⟨sv, hsv, hveq⟩
      exact ⟨sv.2, hvalid sv hsv, by rw [← hveq]⟩
  · show (ps.map (fun sv => (sv.1, ((sv.2 : Nat) : ℚ)))).length = ps.length
    simp

/-- C3 witness at a concrete input: three voters on options 1, 0, 1. -/
theorem close_tallies_count_witness :
    (mapFind sampleStore "p1" = some samplePoll ∧ samplePoll.closed = false ∧
      samplePoll.votes = [] ∧
      (([("a", 1), ("b", 0), ("c", 1)] : List (String × Nat)).map
        Prod.fst).Nodup ∧
      (∀ sv ∈ ([("a", 1), ("b", 0), ("c", 1)] : List (String × Nat)),
        sv.2 < samplePoll.meta.options.length)) ∧
    (∃ p' r, mapFind (applyEvent (applyEvents sampleStore
        (voteEvents "p1" [("a", 1), ("b", 0), ("c", 1)]))
        (Event.close 9 "p1" "adm")) "p1" = some p' ∧
      p'.closed = true ∧ p'.result = some r ∧
      (∀ i, i < samplePoll.meta.options.length →
        r.tallies.get? i = some
          ((([("a", 1), ("b", 0), ("c", 1)] : List (String × Nat)).filter
            (fun sv => sv.2 == i)).length)) ∧
      r.tallies.sum = r.total_votes ∧
      r.total_votes
        = ([("a", 1), ("b", 0), ("c", 1)] : List (String × Nat)).length) :=
  ⟨⟨by decide, by decide, by decide, by decide, by decide⟩,
    close_tallies_count 9 sampleStore "p1" "adm" samplePoll
      [("a", 1), ("b", 0), ("c", 1)] (by decide) (by decide) (by decide)
      (by decide) (by decide)⟩

/-! ### Case analyses of the three handlers -/

theorem onCreate_cases (now : Nat) (id question sender : String)
    (options : Option (List String)) (closes_at : Option Int) (s : Store) :
    _onCreate now id question options closes_at sender s = s ∨
    (mapFind s id = none ∧
      _onCreate now id question options closes_at sender s = s ++
        [(id, { meta := { question := question, options := options.getD [],
                          closes_at :=
                            if closes_at == some 0 then none else closes_at,
                          creator := sender, created_at := now },
                votes := [], closed := false, result := none })]) := by
  unfold _onCreate
  split
  · left; rfl
  · split
    case isTrue h => left; rfl
    case isFalse h =>
      have hid : mapFind s id = none := by
        cases hm : mapFind s id with
        | none => rfl
        | some x => rw [hm] at h; simp at h
      right
      exact ⟨hid, by rw [mapSet_of_none _ _ _ hid]⟩

theorem onVote_cases (pid0 sender : String) (oi : Option ℚ) (s : Store) :
    _onVote pid0 oi sender s = s ∨
    (∃ poll q, mapFind s pid0 = some poll ∧ poll.closed = false ∧
      oi = some q ∧ mapFind poll.votes sender = none ∧
      _onVote pid0 oi sender s
        = mapSet s pid0 { poll with votes := poll.votes ++ [(sender, q)] }) := by
  unfold _onVote
  cases hf : mapFind s pid0 with
  | none => left; rfl
  | some poll =>
    cases hc : poll.closed with
    | true => left; simp [hc]
    | false =>
      cases oi with
      | none => left; simp [hc]
      | some q =>
        by_cases hr : (q < 0 || ((poll.meta.options.length : ℚ)) ≤ q) = true
        · left; simp [hc, hr]
        · by_cases hd : (mapFind poll.votes sender).isSome = true
          · left; simp [hc, hr, hd]
          · have hdn : mapFind poll.votes sender = none := by
              cases hm : mapFind poll.votes sender with
              | none => rfl
              | some x => rw [hm] at hd; simp at hd
            right
            refine ⟨poll, q, rfl, hc, rfl, hdn, ?_⟩
            simp only [hc, Bool.false_eq_true, if_false, hr, hd,
              mapSet_of_none _ _ _ hdn]

theorem onClose_cases (now : Nat) (hp hs : Bool) (ch pid0 : String)
    (s : Store) :
    (_onClose now hp hs ch pid0 s).1 = s ∨
    (∃ poll, mapFind s pid0 = some poll ∧ poll.closed = false ∧
      (_onClose now hp hs ch pid0 s).1 = mapSet s pid0
        { poll with
          closed := true
          result := some (closeResult now poll) }) := by
  cases hf : mapFind s pid0 with
  | none =>
    left
    unfold _onClose
    rw [hf]
  | some poll =>
    cases hc : poll.closed with
    | true =>
      left
      unfold _onClose
      rw [hf]
      simp [hc]
    | false =>
      right
      refine ⟨poll, rfl, hc, ?_⟩
      rw [close_success_eq now hp hs ch pid0 s poll hf hc]

/-! ### Single-step evolution and store well-formedness -/

theorem pollEvolves_refl (p : Poll) (h : p.closed = false → p.result = none) :
    PollEvolves p p := by
  refine ⟨fun _ => rfl, ?_, ?_, ?_, ?_⟩
  · intro h1 h2
    rw [h1] at h2
    cases h2
  · intro h1
    exact ⟨h h1, h1⟩
  · intro k v hv
    exact hv
  · intro hne
    exact absurd rfl hne

theorem nodup_keys_append (votes : List (String × ℚ)) (sender : String)
    (q : ℚ) (hnd : (votes.map Prod.fst).Nodup)
    (hfr : mapFind votes sender = none) :
    ((votes ++ [(sender, q)]).map Prod.fst).Nodup := by
  rw [List.map_append]
  refine List.Nodup.append hnd (List.nodup_singleton _) ?_
  intro x hx hx2
  simp only [List.map_cons, List.map_nil, List.mem_singleton] at hx2
  rcases List.mem_map.mp hx with ⟨e, he, hek⟩
  exact (mapFind_none_iff votes sender).mp hfr e he (hx2 ▸ hek)

theorem applyEvent_evolves (s : Store) (e : Event) (hwf : WF s)
    (pid : String) (p : Poll) (hfind : mapFind s pid = some p) :
    ∃ p', mapFind (applyEvent s e) pid = some p' ∧ PollEvolves p p' := by
  have hres : p.closed = false → p.result = none := (hwf pid p hfind).2
  cases e with
  | other => exact ⟨p, hfind, pollEvolves_refl p hres⟩
  | create now id question options closes_at sender =>
    rcases onCreate_cases now id question sender options closes_at s with
      heq | ⟨hid, heq⟩
    · show ∃ p', mapFind (_onCreate now id question options closes_at sender s)
        pid = some p' ∧ _
      rw [heq]
      exact ⟨p, hfind, pollEvolves_refl p hres⟩
    · show ∃ p', mapFind (_onCreate now id question options closes_at sender s)
        pid = some p' ∧ _
      rw [heq, mapFind_append, hfind]
      exact ⟨p, rfl, pollEvolves_refl p hres⟩
  | vote pid0 oi sender =>
    rcases onVote_cases pid0 sender oi s with
      heq | ⟨poll, q, hf0, hopen0, hoi, hfr, heq⟩
    · show ∃ p', mapFind (_onVote pid0 oi sender s) pid = some p' ∧ _
      rw [heq]
      exact ⟨p, hfind, pollEvolves_refl p hres⟩
    · show ∃ p', mapFind (_onVote pid0 oi sender s) pid = some p' ∧ _
      rw [heq]
      by_cases hpid : pid = pid0
      · subst hpid
        have hpp : p = poll := by
          rw [hfind] at hf0
          exact Option.some_injective _ hf0
        subst hpp
        refine ⟨_, mapFind_mapSet_self _ _ _, ?_, ?_, ?_, ?_, ?_⟩
        · intro h1
          rw [hopen0] at h1
          cases h1
        · intro _ h2
          rw [show ({ p with votes := p.votes ++ [(sender, q)] } : Poll).closed
            = p.closed from rfl, hopen0] at h2
          cases h2
        · intro _
          exact ⟨hres hopen0, hopen0⟩
        · intro k v hv
          show mapFind (p.votes ++ [(sender, q)]) k = some v
          rw [mapFind_append, hv]
          rfl
        · intro _
          exact ⟨hopen0, hopen0⟩
      · rw [mapFind_mapSet_ne _ _ _ _ hpid]
        exact ⟨p, hfind, pollEvolves_refl p hres⟩
  | close now pid0 sender =>
    rcases onClose_cases now true true "tracpoll-votes" pid0 s with
      heq | ⟨poll, hf0, hopen0, heq⟩
    · show ∃ p', mapFind ((_onClose now true true "tracpoll-votes" pid0 s).1)
        pid = some p' ∧ _
      rw [heq]
      exact ⟨p, hfind, pollEvolves_refl p hres⟩
    · show ∃ p', mapFind ((_onClose now true true "tracpoll-votes" pid0 s).1)
        pid = some p' ∧ _
      rw [heq]
      by_cases hpid : pid = pid0
      · subst hpid
        have hpp : p = poll := by
          rw [hfind] at hf0
          exact Option.some_injective _ hf0
        subst hpp
        refine ⟨_, mapFind_mapSet_self _ _ _, ?_, ?_, ?_, ?_, ?_⟩
        · intro h1
          rw [hopen0] at h1
          cases h1
        · intro _ _
          exact ⟨hres hopen0, ⟨closeResult now p, rfl⟩, rfl⟩
        · intro h3
          cases h3
        · intro k v hv
          exact hv
        · intro hne
          exact absurd rfl hne
      · rw [mapFind_mapSet_ne _ _ _ _ hpid]
        exact ⟨p, hfind, pollEvolves_refl p hres⟩

theorem WF_applyEvent (s : Store) (e : Event) (hwf : WF s) :
    WF (applyEvent s e) := by
  cases e with
  | other => exact hwf
  | create now id question options closes_at sender =>
    rcases onCreate_cases now id question sender options closes_at s with
      heq | ⟨hid, heq⟩
    · show WF (_onCreate now id question options closes_at sender s)
      rw [heq]
      exact hwf
    · show WF (_onCreate now id question options closes_at sender s)
      rw [heq]
      intro pid p hfind
      rw [mapFind_append] at hfind
      cases hm : mapFind s pid with
      | some x =>
        rw [hm] at hfind
        have hx : x = p := by simpa using hfind
        rw [← hx]
        exact hwf pid x hm
      | none =>
        rw [hm] at hfind
        simp only [Option.none_or] at hfind
        by_cases hpid : (id == pid) = true
        · simp only [mapFind, hpid, if_true] at hfind
          rw [← Option.some_injective _ hfind]
          exact ⟨List.nodup_nil, fun _ => rfl⟩
        · simp [mapFind, hpid] at hfind
  | vote pid0 oi sender =>
    rcases onVote_cases pid0 sender oi s with
      heq | ⟨poll, q, hf0, hopen0, hoi, hfr, heq⟩
    · show WF (_onVote pid0 oi sender s)
      rw [heq]
      exact hwf
    · show WF (_onVote pid0 oi sender s)
      rw [heq]
      intro pid p hfind
      by_cases hpid : pid = pid0
      · subst hpid
        rw [mapFind_mapSet_self] at hfind
        rw [← Option.some_injective _ hfind]
        obtain ⟨hnd, hrn⟩ := hwf pid poll hf0
        exact ⟨nodup_keys_append poll.votes sender q hnd hfr,
          fun _ => hrn hopen0⟩
      · rw [mapFind_mapSet_ne _ _ _ _ hpid] at hfind
        exact hwf pid p hfind
  | close now pid0 sender =>
    rcases onClose_cases now true true "tracpoll-votes" pid0 s with
      heq | ⟨poll, hf0, hopen0, heq⟩
    · show WF ((_onClose now true true "tracpoll-votes" pid0 s).1)
      rw [heq]
      exact hwf
    · show WF ((_onClose now true true "tracpoll-votes" pid0 s).1)
      rw [heq]
      intro pid p hfind
      by_cases hpid : pid = pid0
      · subst hpid
        rw [mapFind_mapSet_self] at hfind
        rw [← Option.some_injective _ hfind]
        obtain ⟨hnd, _⟩ := hwf pid poll hf0
        refine ⟨hnd, ?_⟩
        intro hcl
        cases hcl
      · rw [mapFind_mapSet_ne _ _ _ _ hpid] at hfind
        exact hwf pid p hfind

theorem WF_applyEvents (es : List Event) :
    ∀ s : Store, WF s → WF (applyEvents s es) := by
  induction es with
  | nil => intro s hwf; exact hwf
  | cons e t ih =>
    intro s hwf
    exact ih (applyEvent s e) (WF_applyEvent s e hwf)

theorem WF_empty : WF [] := by
  intro pid p h
  cases h

/-- C5: along any delivered event sequence applied to the initially
empty store, each existing poll record survives every further event and
evolves by `PollEvolves` (closed records are frozen; `closed` flips at
most once, false→true, exactly together with `result` being attached;
recorded votes never change and `votes` changes only while open), and
every record of the new store has pairwise-distinct voter identities and
no result while open. -/
theorem store_invariants (es : List Event) (e : Event) (pid : String)
    (p : Poll) (hfind : mapFind (applyEvents [] es) pid = some p) :
    ∃ p', mapFind (applyEvent (applyEvents [] es) e) pid = some p' ∧
      PollEvolves p p' ∧
      (p'.votes.map Prod.fst).Nodup ∧
      (p'.closed = false → p'.result = none) := by
  have hwf : WF (applyEvents [] es) := WF_applyEvents es [] WF_empty
  obtain ⟨p', h1, h2⟩ := applyEvent_evolves _ e hwf pid p hfind
  have hwf' : WF (applyEvent (applyEvents [] es) e) :=
    WF_applyEvent _ e hwf
  obtain ⟨h3, h4⟩ := hwf' pid p' h1
  exact ⟨p', h1, h2, h3, h4⟩

/-- C5 witness at a concrete input: one create followed by a vote. -/
theorem store_invariants_witness :
    mapFind (applyEvents []
        [Event.create 5 "p1" "Q" (some ["A", "B"]) none "adm"]) "p1"
      = some { meta := { question := "Q", options := ["A", "B"],
                         closes_at := none, creator := "adm",
                         created_at := 5 },
               votes := [], closed := false, result := none } ∧
    (∃ p', mapFind (applyEvent (applyEvents []
        [Event.create 5 "p1" "Q" (some ["A", "B"]) none "adm"])
        (Event.vote "p1" (some ((0 : Nat) : ℚ)) "v1")) "p1" = some p' ∧
      PollEvolves { meta := { question := "Q", options := ["A", "B"],
                              closes_at := none, creator := "adm",
                              created_at := 5 },
                    votes := [], closed := false, result := none } p' ∧
      (p'.votes.map Prod.fst).Nodup ∧
      (p'.closed = false → p'.result = none)) :=
  ⟨by decide,
    store_invariants [Event.create 5 "p1" "Q" (some ["A", "B"]) none "adm"]
      (Event.vote "p1" (some ((0 : Nat) : ℚ)) "v1") "p1"
      { meta := { question := "Q", options := ["A", "B"], closes_at := none,
                  creator := "adm", created_at := 5 },
        votes := [], closed := false, result := none } (by decide)⟩
